import Mathlib

/-!
Verification of the semantic-analysis core of `lark-parser-language-server`.

The Python sources embedded here are:
* `src/lark_parser_language_server/symbol_table/__init__.py` (class `SymbolTable`)
* `src/lark_parser_language_server/document.py` (class `LarkDocument`)
* `src/lark_parser_language_server/utils.py` (`get_tokens`)

The modules `symbol_table/symbol.py`, `symbol_table/validators.py` and
`syntax_tree/nodes.py` are referenced by the package and its test-suite but
are not part of the available sources; the definitions that depend on them
are modelled from the specification and marked as such in their doc
comments.

Python `dict`s keyed by strings are embedded as association lists
(`List (String × _)`); `dict` lookup takes the first matching key, and keys
are unique in every state the embedded code can produce.  Python `int`s are
embedded as `Int`, exceptions as an explicit `Except` result.
-/

namespace LarkLS

/-- A source position as stored on symbols: zero-based `line`/`column`
(`symbol.py` is absent from the sources; the shape follows the spec's data
model section). -/
structure Position where
  line : Int
  column : Int
deriving DecidableEq, Repr

/-- A source range `{start, end}`; the Python field `end` is called `stop`
here because `end` is a Lean keyword. -/
structure Range where
  start : Position
  stop : Position
deriving DecidableEq, Repr

/-- Lexical classification of a defined name (spec data model). -/
inductive Kind where
  | rule
  | terminal
deriving DecidableEq, Repr

/-- Modelled from the spec: a `Definition` record from
`symbol_table/symbol.py` (absent from the sources).  Only the fields the
claims consult are carried: `name`, `kind`, `range`, `selection_range` and
the `children` map (`name -> list<Definition>`).  The `parent` weak
back-reference and the `ast_node` back-pointer are not needed by any
definition-side computation modelled here. -/
inductive Definition where
  | mk (name : String) (kind : Kind) (range : Range) (selectionRange : Range)
      (children : List (String × List Definition))

def Definition.name : Definition → String
  | .mk n _ _ _ _ => n

def Definition.kind : Definition → Kind
  | .mk _ k _ _ _ => k

def Definition.range : Definition → Range
  | .mk _ _ r _ _ => r

def Definition.selectionRange : Definition → Range
  | .mk _ _ _ s _ => s

def Definition.children : Definition → List (String × List Definition)
  | .mk _ _ _ _ c => c

/-- The statement-level AST node a `Reference` points back to, as far as
local-scope resolution consults it: a `Rule` (with its name), an `Import`
(with its optional alias), or any other node kind. -/
inductive AstBackRef where
  | rule (name : String)
  | importNode (aliasName : Option String)
  | otherNode
deriving DecidableEq, Repr

/-- Modelled from the spec: a `Reference` record from
`symbol_table/symbol.py` (absent from the sources): `name`, `position`,
`range`, and the non-owning `ast_node` back-reference (here reduced to the
shape local-scope resolution inspects; `none` models a Python `None`
`ast_node`). -/
structure Reference where
  name : String
  position : Position
  range : Range
  astNode : Option AstBackRef
deriving DecidableEq, Repr

/-- Python dict lookup on an association list: the value under the first
matching key, as a Python `d.get(k)`. -/
def dictGet {α : Type} (d : List (String × α)) (k : String) : Option α :=
  (d.find? (fun p => p.1 == k)).map (·.2)

/-- Python `k in d` on an embedded dict. -/
def dictContains {α : Type} (d : List (String × α)) (k : String) : Bool :=
  (d.find? (fun p => p.1 == k)).isSome

/-- The list stored under `k`, or `[]` when the key is absent. -/
def dictEntries {α : Type} (d : List (String × List α)) (k : String) : List α :=
  (dictGet d k).getD []

/-- The embedding of the Python idiom used by `SymbolTable.collect_*`:

    if name not in m:
        m[name] = []
    m[name].append(v)

On the association-list embedding: append `v` to the list under `k`,
creating the key at the end of the dict when it is new. -/
def dictAppend {α : Type} (d : List (String × List α)) (k : String) (v : α) :
    List (String × List α) :=
  if dictContains d k then
    d.map (fun p => if p.1 == k then (p.1, p.2 ++ [v]) else p)
  else
    d ++ [(k, [v])]

/-- The `SymbolTable` state from `symbol_table/__init__.py`: the two
name-keyed accumulators `definitions` and `references`. -/
structure SymbolTable where
  definitions : List (String × List Definition)
  references : List (String × List Reference)

/-- Embedding of `SymbolTable.__init__`: both maps start empty. -/
def SymbolTable.empty : SymbolTable :=
  { definitions := [], references := [] }

/-- Embedding of `SymbolTable.collect_definitions` (symbol_table/__init__.py:42-48):
iterate `ast.statements` in order, extract each statement's definitions
with `definitions_from_ast_node` (a function of the absent
`symbol_table/syntax_tree.py`, abstracted as the parameter `defsFrom`),
and append each one under its name. -/
def SymbolTable.collect_definitions {σ : Type} (defsFrom : σ → List Definition)
    (tbl : SymbolTable) (statements : List σ) : SymbolTable :=
  statements.foldl
    (fun t statement =>
      (defsFrom statement).foldl
        (fun t d => { t with definitions := dictAppend t.definitions d.name d })
        t)
    tbl

/-- Embedding of `SymbolTable.collect_references` (symbol_table/__init__.py:50-56):
same shape as `collect_definitions`, over `references_from_ast_node`
(abstracted as `refsFrom`) and the `references` map. -/
def SymbolTable.collect_references {σ : Type} (refsFrom : σ → List Reference)
    (tbl : SymbolTable) (statements : List σ) : SymbolTable :=
  statements.foldl
    (fun t statement =>
      (refsFrom statement).foldl
        (fun t r => { t with references := dictAppend t.references r.name r })
        t)
    tbl

/-! ## The hosting document (`document.py`) -/

/-- LSP diagnostic severity (only the constructors the code uses matter). -/
inductive Severity where
  | error
  | warning
  | information
  | hint
deriving DecidableEq, Repr

/-- An LSP `Diagnostic` as built by `LarkDocument._add_diagnostic`: a range
(`line`/`character` to `endLine`/`endCharacter`), message, severity and
source tag. -/
structure Diagnostic where
  line : Int
  character : Int
  endLine : Int
  endCharacter : Int
  message : String
  severity : Severity
  source : String
deriving DecidableEq, Repr

/-- The Python exceptions the embedded code can raise or catch.  `msg`
gives the `str(e)` rendering used by the `f"Analysis error: {str(e)}"`
format (apostrophes of the CPython message texts are elided). -/
inductive PyError where
  | indexError
  | attributeError (text : String)
  | otherError (text : String)
deriving DecidableEq, Repr

def PyError.msg : PyError → String
  | .indexError => "list index out of range"
  | .attributeError t => t
  | .otherError t => t

/-- Python list indexing `l[i]` with its negative-index convention:
`l[i]` for `0 ≤ i < len(l)`, `l[len(l)+i]` for `-len(l) ≤ i < 0`, and an
`IndexError` (here `none`) otherwise. -/
def pyIndex {α : Type} (l : List α) (i : Int) : Option α :=
  let n : Int := l.length
  if 0 ≤ i then
    if i < n then l[i.toNat]? else none
  else
    let j := n + i
    if 0 ≤ j then l[j.toNat]? else none

/-- Embedding of `LarkDocument._add_diagnostic` (document.py:151-173): clamp `line` to
`[0, len(lines)-1]`, read `lines[line]` (Python indexing, so this raises
`IndexError` when `lines` is empty and the clamp produced `-1`), clamp
`col` to `[0, len(line_text)]`, and append one `Diagnostic` spanning
`(line, col)`–`(line, col+1)`. -/
def add_diagnostic (lines : List String) (diags : List Diagnostic) (line col : Int)
    (message : String) (severity : Severity) : Except PyError (List Diagnostic) :=
  let line := max 0 line
  let line := min line ((lines.length : Int) - 1)
  match pyIndex lines line with
  | none => .error .indexError
  | some lineText =>
    let col := max 0 col
    let col := min col (lineText.length : Int)
    .ok (diags ++
      [{ line := line, character := col, endLine := line, endCharacter := col + 1,
         message := message, severity := severity, source := "lark-language-server" }])

/-- Embedding of `LarkDocument._analyze` (document.py:46-57): run the four analysis
steps (abstracted as `body`, a function from the incoming `_diagnostics`
state to the state at return-or-raise time together with the raised
exception, if any); on an exception, catch it and call `_add_diagnostic(0,
0, f"Analysis error: {str(e)}", Error)` — which can itself raise. -/
def analyze (lines : List String)
    (body : List Diagnostic → List Diagnostic × Option PyError)
    (diags : List Diagnostic) : Except PyError (List Diagnostic) :=
  match body diags with
  | (d, none) => .ok d
  | (d, some e) => add_diagnostic lines d 0 0 ("Analysis error: " ++ e.msg) .error

/-- The positioned branch of `LarkDocument._parse_grammar`'s exception
handler (document.py:77-84): for an `UnexpectedCharacters`/`UnexpectedEOF`
error carrying `(e.line, e.column)`, add a diagnostic at
`line = e.line - 1` and `col = e.column - 1 if e.column else 0` (a Python
falsy column — `None` or `0` — falls back to `0`). -/
def parse_error_diagnostic (lines : List String) (diags : List Diagnostic)
    (errLine : Int) (errColumn : Option Int) (errText : String) :
    Except PyError (List Diagnostic) :=
  let line := errLine - 1
  let col : Int :=
    match errColumn with
    | some c => if c != 0 then c - 1 else 0
    | none => 0
  add_diagnostic lines diags line col ("Parse error: " ++ errText) .error

/-- The attribute names defined by the `SymbolTable` class body
(symbol_table/__init__.py:28-56): the two annotated fields and the four
methods.  `visit_topdown` is not among them. -/
def symbolTableMembers : List String :=
  ["definitions", "references", "__init__", "__getitem__", "__contains__",
   "collect_definitions", "collect_references"]

/-- Embedding of `LarkDocument._extract_symbols` (document.py:90-93): when
`_parsed_tree` is set, evaluate `self._symbol_table.visit_topdown(...)`.
The attribute lookup consults the class member list above and raises
`AttributeError` when the name is absent (the CPython message, apostrophes
elided). -/
def extract_symbols (parsedTree : Option Unit) : Except PyError Unit :=
  match parsedTree with
  | none => .ok ()
  | some _ =>
    if symbolTableMembers.contains "visit_topdown" then
      .ok ()
    else
      .error (.attributeError "SymbolTable object has no attribute visit_topdown")

/-- The body of `_analyze` for a document whose `_parse_grammar` already
succeeded and set `_parsed_tree` (so the parse step added no diagnostics
and raised nothing): `_extract_symbols` runs next; `_find_references`
(document.py:95-112) and `_validate_references` (document.py:114-149) have
entirely commented-out bodies and are no-ops. -/
def analysis_steps_after_parse (parsedTree : Option Unit)
    (diags : List Diagnostic) : List Diagnostic × Option PyError :=
  match extract_symbols parsedTree with
  | .error e => (diags, some e)
  | .ok () => (diags, none)

/-- Embedding of `_analyze` specialised to the successful-parse document state. -/
def analyze_after_successful_parse (lines : List String) (parsedTree : Option Unit)
    (diags : List Diagnostic) : Except PyError (List Diagnostic) :=
  analyze lines (analysis_steps_after_parse parsedTree) diags

/-! ## `get_tokens` (`utils.py`) -/

/-- One entry of a parse tree's `children` list as `get_tokens` inspects
it: a nested `Tree` (with its own children), a `Token` leaf, Python
`None`, or any other non-`None` value. -/
inductive Child where
  | tree (children : List Child)
  | token (t : String)
  | null
  | otherValue (v : String)

/-- Embedding of `get_tokens` (utils.py:4-16) as the list of values the generator
yields over a children list, in order: a `Tree` child is recursed into, a
`Token` child is yielded, any other non-`None` child is yielded, and a
`None` child is yielded only when `include_placeholders` is set.  The
function reads the tree and allocates the output; it never writes to the
tree. -/
def get_tokens : List Child → Bool → List Child
  | [], _ => []
  | Child.tree ts :: cs, ip => get_tokens ts ip ++ get_tokens cs ip
  | Child.token t :: cs, ip => Child.token t :: get_tokens cs ip
  | Child.null :: cs, ip => (if ip then [Child.null] else []) ++ get_tokens cs ip
  | Child.otherValue v :: cs, ip => Child.otherValue v :: get_tokens cs ip

/-- The spec-side description for C7: the `Token` leaves of the tree, each
once, in depth-first left-to-right order, skipping `None` children. -/
def spec_token_leaves : List Child → List Child
  | [] => []
  | Child.tree ts :: cs => spec_token_leaves ts ++ spec_token_leaves cs
  | Child.token t :: cs => Child.token t :: spec_token_leaves cs
  | Child.null :: cs => spec_token_leaves cs
  | Child.otherValue _ :: cs => spec_token_leaves cs

/-- The hypothesis of C7: every child, recursively, is a `Tree`, a `Token`
or `None`. -/
def children_well_typed : List Child → Bool
  | [] => true
  | Child.tree ts :: cs => children_well_typed ts && children_well_typed cs
  | Child.token _ :: cs => children_well_typed cs
  | Child.null :: cs => children_well_typed cs
  | Child.otherValue _ :: _ => false

/-! ## The `LarkDocument` state and its read accessors -/

/-- Helper for `splitlines`: consume the characters, accumulating the
current (reversed) line; the final line is emitted only when non-empty or
followed by nothing (Python drops a trailing empty line). -/
def splitlinesAux : List Char → List Char → List String
  | [], acc => if acc.isEmpty then [] else [String.mk acc.reverse]
  | '\n' :: rest, acc => String.mk acc.reverse :: splitlinesAux rest []
  | c :: rest, acc => splitlinesAux rest (c :: acc)

/-- Python `str.splitlines()` restricted to `\n` line terminators (the
only terminator the claims exercise): split on `\n`, without a trailing
empty line, so `"" → []`, `"a\n" → ["a"]`, `"a\nb" → ["a", "b"]`. -/
def splitlines (s : String) : List String :=
  splitlinesAux s.toList []

/-- An LSP `Location` as built by `get_references`. -/
structure Location where
  uri : String
  line : Int
  character : Int
  endLine : Int
  endCharacter : Int
deriving DecidableEq, Repr

/-- An LSP `Hover` as built by `get_hover_info`: markdown contents plus
the highlighted range. -/
structure Hover where
  contents : String
  line : Int
  character : Int
  endLine : Int
  endCharacter : Int
deriving DecidableEq, Repr

/-- The `LarkDocument` state after `__init__` (document.py:31-44): the
source,  its split lines, the `_rules`/`_terminals`/`_imports` name-to-
position maps, the `_references` name-to-positions map, and the collected
diagnostics.  The `_symbol_table` and `_parsed_tree` fields are not
carried: no accessor the claims mention reads them. -/
structure LarkDocument where
  uri : String
  source : String
  lines : List String
  rules : List (String × (Int × Int))
  terminals : List (String × (Int × Int))
  imports : List (String × (Int × Int))
  references : List (String × List (Int × Int))
  diagnostics : List Diagnostic

/-- Embedding of `LarkDocument.__init__` (document.py:31-44): set every map to `{}`,
then run `_analyze`.  `body` abstracts the four analysis steps exactly as
in `analyze`; none of them writes to `_rules`, `_terminals`, `_imports` or
`_references` — `_parse_grammar` only sets `_parsed_tree` and appends
diagnostics, `_extract_symbols` only calls into the symbol table, and the
bodies of `_find_references` (document.py:95-112) and
`_validate_references` (document.py:114-149) consist entirely of commented
out code.  A raising `_analyze` propagates out of the constructor. -/
def mkLarkDocument (uri source : String)
    (body : List Diagnostic → List Diagnostic × Option PyError) :
    Except PyError LarkDocument :=
  let lines := splitlines source
  match analyze lines body [] with
  | .error e => .error e
  | .ok ds =>
    .ok { uri := uri, source := source, lines := lines,
          rules := [], terminals := [], imports := [], references := [],
          diagnostics := ds }

/-- A character counts as part of a word for `get_symbol_at_position`:
Python `ch.isalnum() or ch == "_"` (ASCII reading of `isalnum`). -/
def isWordChar (c : Char) : Bool :=
  c.isAlphanum || c == '_'

/-- The backward scan of `get_symbol_at_position` (document.py:189-193):
`while start > 0 and isWordChar(line_text[start - 1]): start -= 1`. -/
def scanWordStart : List Char → Nat → Nat
  | _, 0 => 0
  | cs, n + 1 =>
    match cs[n]? with
    | some c => if isWordChar c then scanWordStart cs n else n + 1
    | none => n + 1

/-- The forward scan of `get_symbol_at_position` (document.py:195-199):
`while end < len(line_text) and isWordChar(line_text[end]): end += 1`. -/
def scanWordEnd (cs : List Char) (e : Nat) : Nat :=
  if h : e < cs.length then
    if isWordChar cs[e] then scanWordEnd cs (e + 1) else e
  else e
termination_by cs.length - e

/-- Embedding of `LarkDocument.get_symbol_at_position` (document.py:179-204): `None`
when the position is outside the document, otherwise the maximal run of
word characters around `col`, or `None` when that run is empty. -/
def get_symbol_at_position (lines : List String) (line col : Nat) : Option String :=
  if lines.length ≤ line then none
  else
    let cs := (lines.getD line "").toList
    if cs.length ≤ col then none
    else
      let start := scanWordStart cs col
      let stop := scanWordEnd cs col
      if start == stop then none
      else some (String.mk ((cs.drop start).take (stop - start)))

/-- Embedding of `LarkDocument.get_references` (document.py:217-232): the locations
recorded in `_references` under the symbol, or `[]` when the symbol has no
entry. -/
def LarkDocument.get_references (doc : LarkDocument) (symbol : String) : List Location :=
  match dictGet doc.references symbol with
  | none => []
  | some ps =>
    ps.map (fun lc =>
      { uri := doc.uri, line := lc.1, character := lc.2,
        endLine := lc.1, endCharacter := lc.2 + (symbol.length : Int) })

/-- Embedding of `LarkDocument.get_hover_info` (document.py:282-302): `None` without a
symbol at the position; a rule/terminal markdown hover when the symbol is
in `_rules`/`_terminals`; `None` otherwise. -/
def LarkDocument.get_hover_info (doc : LarkDocument) (line col : Nat) : Option Hover :=
  match get_symbol_at_position doc.lines line col with
  | none => none
  | some symbol =>
    if symbol = "" then none
    else if dictContains doc.rules symbol then
      some { contents := "**Rule:** `" ++ symbol ++ "`\n\nA grammar rule definition.",
             line := line, character := col,
             endLine := line, endCharacter := col + symbol.length }
    else if dictContains doc.terminals symbol then
      some { contents := "**Terminal:** `" ++ symbol ++ "`\n\nA terminal symbol definition.",
             line := line, character := col,
             endLine := line, endCharacter := col + symbol.length }
    else none

/-! ## Validators and `get_definition`

`symbol_table/validators.py` and the lookup methods of the full
`SymbolTable` class are not part of the available sources (only their
callers and tests are); the definitions below are modelled from the
spec's §4.3/§4.4 and marked so. -/

/-- Modelled from the spec: inclusive point order on positions, for the
range-containment predicate. -/
def posLeB (a b : Position) : Bool :=
  decide (a.line < b.line ∨ (a.line = b.line ∧ a.column ≤ b.column))

/-- Modelled from the spec: range containment of a point, inclusive on
both ends. -/
def rangeContainsPos (r : Range) (p : Position) : Bool :=
  posLeB r.start p && posLeB p r.stop

/-- The first definition stored under a key, when any. -/
def dictHead {α : Type} (d : List (String × List α)) (k : String) : Option α :=
  match dictGet d k with
  | some (x :: _) => some x
  | _ => none

/-- Modelled from the spec (§4.4, absent `validators.py`):
`_reference_is_in_local_scope(name, reference, definitions)` — the
reference resolves locally when its `ast_node` is a `Rule` whose own
definition's range contains the reference's position or whose `children`
keys contain `name`; symmetrically for an `Import` alias. -/
def reference_is_in_local_scope (name : String) (ref : Reference)
    (definitions : List (String × List Definition)) : Bool :=
  match ref.astNode with
  | some (.rule ruleName) =>
    match dictHead definitions ruleName with
    | some d => rangeContainsPos d.range ref.position || dictContains d.children name
    | none => false
  | some (.importNode (some aliasName)) =>
    match dictHead definitions aliasName with
    | some d => rangeContainsPos d.range ref.position || dictContains d.children name
    | none => false
  | _ => false

/-- A reference-validation error, carrying the offending reference. -/
inductive RefError where
  | definitionNotFoundForReference (name : String) (ref : Reference)
deriving DecidableEq, Repr

/-- A definition-validation error. -/
inductive DefError where
  | definitionNotFound (name : String)
  | multipleDefinitions (name : String) (dup : Definition)

/-- Modelled from the spec (§4.4, absent `validators.py`):
`validate_single_definition(name, defs)` — zero definitions give a
`DefinitionNotFoundError`; more than one give one
`MultipleDefinitionsError` per definition after the first.  The
error-collecting callback is embedded as the returned error list. -/
def validate_single_definition (name : String) (defs : List Definition) : List DefError :=
  match defs with
  | [] => [.definitionNotFound name]
  | _ :: rest => rest.map (.multipleDefinitions name)

/-- Modelled from the spec (§4.4, absent `validators.py`):
`validate_undefined_reference(name, refs, definitions)` — when `name` is
in the global map every reference is resolved; otherwise each reference
not resolvable by local-scope resolution contributes one
`DefinitionNotFoundForReferenceError`. -/
def validate_undefined_reference (name : String) (refs : List Reference)
    (definitions : List (String × List Definition)) : List RefError :=
  if dictContains definitions name then []
  else
    refs.filterMap (fun r =>
      if reference_is_in_local_scope name r definitions then none
      else some (.definitionNotFoundForReference name r))

/-- Modelled from the spec (§4.3, `get_definition` of the full
`SymbolTable` class absent from the sources): the first entry of
`definitions[name]` when present; otherwise scan the references stored
under `name` and return the definition of the enclosing `Rule` or of the
`Import` alias; `None` when no path exists. -/
def SymbolTable.get_definition (tbl : SymbolTable) (name : String) : Option Definition :=
  match dictGet tbl.definitions name with
  | some (d :: _) => some d
  | _ =>
    (dictEntries tbl.references name).findSome? (fun r =>
      match r.astNode with
      | some (.rule ruleName) => dictHead tbl.definitions ruleName
      | some (.importNode (some aliasName)) => dictHead tbl.definitions aliasName
      | _ => none)

/-- The claim's description of local-scope resolvability, as a
proposition. -/
def ResolvesLocally (name : String) (r : Reference)
    (definitions : List (String × List Definition)) : Prop :=
  (∃ rn d, r.astNode = some (.rule rn) ∧ dictHead definitions rn = some d ∧
    (rangeContainsPos d.range r.position = true ∨ dictContains d.children name = true)) ∨
  (∃ an d, r.astNode = some (.importNode (some an)) ∧ dictHead definitions an = some d ∧
    (rangeContainsPos d.range r.position = true ∨ dictContains d.children name = true))

/-- The claim's description of what a single scanned reference yields for
`get_definition`: the reference's `ast_node` is a `Rule` whose own name
has a definition (with `d` its first stored entry), or an `Import` with a
defined alias — `d` being the returned definition. -/
def RefYields (tbl : SymbolTable) (r : Reference) (d : Definition) : Prop :=
  (∃ rn rest, r.astNode = some (.rule rn) ∧
    dictGet tbl.definitions rn = some (d :: rest)) ∨
  (∃ an rest, r.astNode = some (.importNode (some an)) ∧
    dictGet tbl.definitions an = some (d :: rest))

/-- The sample ranges and symbols of the `template_rule{T}: T` scenario:
the rule definition spans the whole statement, holds its template
parameter `T` among its `children`, and the body's `T` reference points
back (via `ast_node`) to the enclosing rule. -/
def templateParamDef : Definition :=
  .mk "T" .rule ⟨⟨0, 14⟩, ⟨0, 15⟩⟩ ⟨⟨0, 14⟩, ⟨0, 15⟩⟩ []

def templateRuleDef : Definition :=
  .mk "template_rule" .rule ⟨⟨0, 0⟩, ⟨0, 19⟩⟩ ⟨⟨0, 0⟩, ⟨0, 13⟩⟩
    [("T", [templateParamDef])]

def templateParamRef : Reference :=
  { name := "T", position := ⟨0, 18⟩, range := ⟨⟨0, 18⟩, ⟨0, 19⟩⟩,
    astNode := some (.rule "template_rule") }

def templateTable : SymbolTable :=
  { definitions := [("template_rule", [templateRuleDef])],
    references := [("T", [templateParamRef])] }

def dupDefA : Definition := .mk "r" .rule ⟨⟨0, 0⟩, ⟨0, 8⟩⟩ ⟨⟨0, 0⟩, ⟨0, 1⟩⟩ []

def dupDefB : Definition := .mk "r" .rule ⟨⟨1, 0⟩, ⟨1, 8⟩⟩ ⟨⟨1, 0⟩, ⟨1, 1⟩⟩ []

def dupDefC : Definition := .mk "r" .rule ⟨⟨2, 0⟩, ⟨2, 8⟩⟩ ⟨⟨2, 0⟩, ⟨2, 1⟩⟩ []

/-! Dictionary lemmas for the collect passes. -/

theorem comp_key_if_append {α : Type} (k k' : String) (v : α) :
    ((fun q : String × List α => q.1 == k') ∘
        (fun q : String × List α => if q.1 == k then (q.1, q.2 ++ [v]) else q)) =
      (fun q : String × List α => q.1 == k') := by
  funext q
  by_cases h : q.1 = k <;> simp [h]

theorem dictGet_dictAppend_same {α : Type} (d : List (String × List α)) (k : String) (v : α) :
    dictGet (dictAppend d k v) k = some (dictEntries d k ++ [v]) := by
  unfold dictAppend
  by_cases hc : dictContains d k
  · rw [if_pos hc]
    unfold dictContains at hc
    obtain ⟨p, hp⟩ := Option.isSome_iff_exists.mp hc
    have hpk : (p.1 == k) = true := by simpa using List.find?_some hp
    unfold dictGet dictEntries dictGet
    rw [List.find?_map, comp_key_if_append, hp]
    have hp1 : p.1 = k := by simpa using hpk
    simp [hp, hp1]
  · rw [if_neg hc]
    unfold dictContains at hc
    have hnone : d.find? (fun q => q.1 == k) = none := by
      cases h : d.find? (fun q => q.1 == k) with
      | none => rfl
      | some p => rw [h] at hc; simp at hc
    unfold dictGet dictEntries dictGet
    rw [List.find?_append, hnone]
    simp [hnone, List.find?_singleton]

theorem dictGet_dictAppend_other {α : Type} (d : List (String × List α)) (k k' : String)
    (v : α) (hne : (k' == k) = false) :
    dictGet (dictAppend d k v) k' = dictGet d k' := by
  unfold dictAppend
  by_cases hc : dictContains d k
  · rw [if_pos hc]
    unfold dictGet
    rw [List.find?_map, comp_key_if_append]
    cases h : d.find? (fun q => q.1 == k') with
    | none => simp
    | some p =>
      have hpk' : (p.1 == k') = true := by simpa using List.find?_some h
      have hpk : (p.1 == k) = false := by
        have h1 : p.1 = k' := by simpa using hpk'
        have h2 : ¬ (k' = k) := by simpa using hne
        simp [h1, h2]
      have hp1 : ¬ p.1 = k := by simpa using hpk
      simp [hp1]
  · rw [if_neg hc]
    unfold dictGet
    rw [List.find?_append]
    have hkk' : (k == k') = false := by
      have h2 : ¬ (k' = k) := by simpa using hne
      simp only [beq_eq_false_iff_ne, ne_eq]
      intro hh
      exact h2 hh.symm
    cases h : d.find? (fun q => q.1 == k') with
    | none => simp [List.find?_singleton, hkk']
    | some p => simp

theorem dictEntries_dictAppend_same {α : Type} (d : List (String × List α)) (k : String)
    (v : α) : dictEntries (dictAppend d k v) k = dictEntries d k ++ [v] := by
  unfold dictEntries
  rw [dictGet_dictAppend_same]
  rfl

theorem dictEntries_dictAppend_other {α : Type} (d : List (String × List α)) (k k' : String)
    (v : α) (hne : (k' == k) = false) :
    dictEntries (dictAppend d k v) k' = dictEntries d k' := by
  unfold dictEntries
  rw [dictGet_dictAppend_other _ _ _ _ hne]

theorem foldAppend_entries {α : Type} (getName : α → String) (items : List α)
    (acc : List (String × List α)) (name : String) :
    dictEntries (items.foldl (fun a x => dictAppend a (getName x) x) acc) name =
      dictEntries acc name ++ items.filter (fun x => getName x == name) := by
  induction items generalizing acc with
  | nil => simp
  | cons x xs ih =>
    simp only [List.foldl_cons, List.filter_cons]
    rw [ih]
    by_cases hx : getName x = name
    · rw [hx, dictEntries_dictAppend_same]
      simp [hx]
    · have hb : (getName x == name) = false := by simpa using hx
      have hb' : (name == getName x) = false := by
        simp only [beq_eq_false_iff_ne, ne_eq]
        intro hh
        exact hx hh.symm
      rw [dictEntries_dictAppend_other _ _ _ _ hb']
      simp [hb]

theorem foldStatements_entries {α σ : Type} (getName : α → String) (f : σ → List α)
    (stmts : List σ) (acc : List (String × List α)) (name : String) :
    dictEntries
        (stmts.foldl (fun a s => (f s).foldl (fun a x => dictAppend a (getName x) x) a) acc)
        name =
      dictEntries acc name ++ (stmts.flatMap f).filter (fun x => getName x == name) := by
  induction stmts generalizing acc with
  | nil => simp
  | cons s ss ih =>
    simp only [List.foldl_cons, List.flatMap_cons, List.filter_append]
    rw [ih, foldAppend_entries]
    simp [List.append_assoc]

theorem collect_definitions_eq {σ : Type} (defsFrom : σ → List Definition)
    (tbl : SymbolTable) (stmts : List σ) :
    SymbolTable.collect_definitions defsFrom tbl stmts =
      { tbl with
        definitions :=
          stmts.foldl
            (fun a s => (defsFrom s).foldl (fun a d => dictAppend a d.name d) a)
            tbl.definitions } := by
  unfold SymbolTable.collect_definitions
  induction stmts generalizing tbl with
  | nil => simp
  | cons s ss ih =>
    simp only [List.foldl_cons]
    have hinner : ∀ (items : List Definition) (t : SymbolTable),
        items.foldl (fun t d => { t with definitions := dictAppend t.definitions d.name d }) t =
          { t with definitions := items.foldl (fun a d => dictAppend a d.name d) t.definitions } := by
      intro items
      induction items with
      | nil => intro t; simp
      | cons d ds ihd => intro t; simp only [List.foldl_cons]; rw [ihd]
    rw [hinner, ih]

theorem collect_references_eq {σ : Type} (refsFrom : σ → List Reference)
    (tbl : SymbolTable) (stmts : List σ) :
    SymbolTable.collect_references refsFrom tbl stmts =
      { tbl with
        references :=
          stmts.foldl
            (fun a s => (refsFrom s).foldl (fun a r => dictAppend a r.name r) a)
            tbl.references } := by
  unfold SymbolTable.collect_references
  induction stmts generalizing tbl with
  | nil => simp
  | cons s ss ih =>
    simp only [List.foldl_cons]
    have hinner : ∀ (items : List Reference) (t : SymbolTable),
        items.foldl (fun t r => { t with references := dictAppend t.references r.name r }) t =
          { t with references := items.foldl (fun a r => dictAppend a r.name r) t.references } := by
      intro items
      induction items with
      | nil => intro t; simp
      | cons r rs ihr => intro t; simp only [List.foldl_cons]; rw [ihr]
    rw [hinner, ih]

/-- C1: `SymbolTable.collect_definitions` visits the statements in list
order and appends each extracted definition to `definitions[name]` in
encounter order, never removing, replacing, or reordering entries already
stored: for every name, the entries after the pass are exactly the entries
before the pass followed by the definitions the statements contribute for
that name, in statement-then-extraction order (so a name defined `k` times
ends with exactly `k` entries in first-seen order).
`SymbolTable.collect_references` satisfies the same property for
`references[name]`. -/
theorem collect_passes_append_in_encounter_order {σ : Type}
    (defsFrom : σ → List Definition) (refsFrom : σ → List Reference)
    (tbl : SymbolTable) (stmts : List σ) (name : String) :
    dictEntries (SymbolTable.collect_definitions defsFrom tbl stmts).definitions name =
        dictEntries tbl.definitions name
          ++ (stmts.flatMap defsFrom).filter (fun d => d.name == name) ∧
      dictEntries (SymbolTable.collect_references refsFrom tbl stmts).references name =
        dictEntries tbl.references name
          ++ (stmts.flatMap refsFrom).filter (fun r => r.name == name) := by
  constructor
  · rw [collect_definitions_eq]
    exact foldStatements_entries Definition.name defsFrom stmts tbl.definitions name
  · rw [collect_references_eq]
    exact foldStatements_entries Reference.name refsFrom stmts tbl.references name

/-! Shared lemmas about `add_diagnostic` and `analyze` on a document with
at least one line. -/

theorem pyIndex_of_bounds {α : Type} (l : List α) (i : Int)
    (h0 : 0 ≤ i) (h1 : i < l.length) : (pyIndex l i).isSome := by
  unfold pyIndex
  simp only [h0, if_true, h1, if_true]
  have : i.toNat < l.length := by omega
  simp [List.getElem?_eq_getElem, this]

theorem add_diagnostic_nonempty (lines : List String) (diags : List Diagnostic)
    (line col : Int) (message : String) (severity : Severity) (hl : lines ≠ []) :
    add_diagnostic lines diags line col message severity =
      let l := min (max 0 line) ((lines.length : Int) - 1)
      let text := (pyIndex lines l).getD ""
      let c := min (max 0 col) (text.length : Int)
      .ok (diags ++
        [{ line := l, character := c, endLine := l, endCharacter := c + 1,
           message := message, severity := severity,
           source := "lark-language-server" }]) := by
  have hlen : 1 ≤ lines.length := by
    cases lines with
    | nil => exact absurd rfl hl
    | cons a l => simp
  have h0 : 0 ≤ min (max 0 line) ((lines.length : Int) - 1) := by
    have h1 : (0 : Int) ≤ max 0 line := le_max_left 0 line
    have h2 : (0 : Int) ≤ (lines.length : Int) - 1 := by
      have : (1 : Int) ≤ (lines.length : Int) := by exact_mod_cast hlen
      omega
    exact le_min h1 h2
  have h1 : min (max 0 line) ((lines.length : Int) - 1) < lines.length := by
    have : min (max 0 line) ((lines.length : Int) - 1) ≤ (lines.length : Int) - 1 :=
      min_le_right _ _
    omega
  have hsome := pyIndex_of_bounds lines _ h0 h1
  obtain ⟨text, htext⟩ := Option.isSome_iff_exists.mp hsome
  unfold add_diagnostic
  simp only [htext, Option.getD_some]

theorem analyze_catch_spec (lines : List String)
    (body : List Diagnostic → List Diagnostic × Option PyError)
    (diags d : List Diagnostic) (e : PyError) (hl : lines ≠ [])
    (hb : body diags = (d, some e)) :
    analyze lines body diags =
      .ok (d ++
        [{ line := 0, character := 0, endLine := 0, endCharacter := 1,
           message := "Analysis error: " ++ e.msg, severity := .error,
           source := "lark-language-server" }]) := by
  have hlen : 1 ≤ lines.length := by
    cases lines with
    | nil => exact absurd rfl hl
    | cons a l => simp
  unfold analyze
  rw [hb]
  show add_diagnostic lines d 0 0 ("Analysis error: " ++ e.msg) .error = _
  rw [add_diagnostic_nonempty lines d 0 0 _ _ hl]
  have hl0 : min (max 0 (0 : Int)) ((lines.length : Int) - 1) = 0 := by
    have : (0 : Int) ≤ (lines.length : Int) - 1 := by
      have : (1 : Int) ≤ (lines.length : Int) := by exact_mod_cast hlen
      omega
    simp [min_eq_left, this]
  simp only [hl0]
  have hc0 : ∀ text : String, min (max 0 (0 : Int)) ((text.length : Int)) = 0 := by
    intro text
    have : (0 : Int) ≤ (text.length : Int) := by positivity
    simp [min_eq_left, this]
  simp [hc0]

/-- C10: calling `_add_diagnostic` on a document whose source splits into
zero lines (`self.lines == []`) raises `IndexError` for every line,
column, message and severity: the clamp `min(line, len(self.lines) - 1)`
yields `-1` and `self.lines[-1]` indexes an empty list, so the
catch-and-degrade error path is unreachable for empty documents. -/
theorem add_diagnostic_empty_lines_raises (diags : List Diagnostic) (line col : Int)
    (message : String) (severity : Severity) :
    add_diagnostic [] diags line col message severity = Except.error PyError.indexError := by
  have hm : min (max 0 line) (((([] : List String).length) : Int) - 1) = -1 := by
    have h1 : (-1 : Int) ≤ max 0 line := le_trans (by norm_num) (le_max_left 0 line)
    simp only [List.length_nil, Nat.cast_zero, zero_sub]
    exact min_eq_right h1
  unfold add_diagnostic
  simp only [hm]
  rfl

/-- C2 (amended): for every `LarkDocument` whose source splits into at
least one line, if any step of the analysis pass raises an exception,
`_analyze` catches it and appends exactly one Error-severity diagnostic at
position `(0,0)` describing the analysis failure.  (The claim as stated,
over *every* document, fails for an empty document — see the
counterexample theorem — because the catch path itself raises
`IndexError`.) -/
theorem analyze_catches_and_degrades (lines : List String)
    (body : List Diagnostic → List Diagnostic × Option PyError)
    (diags d : List Diagnostic) (e : PyError) (hl : lines ≠ [])
    (hb : body diags = (d, some e)) :
    analyze lines body diags =
      Except.ok (d ++
        [{ line := 0, character := 0, endLine := 0, endCharacter := 1,
           message := "Analysis error: " ++ e.msg, severity := .error,
           source := "lark-language-server" }]) :=
  analyze_catch_spec lines body diags d e hl hb

/-- Witness for C2's amended theorem at a concrete one-line document with
a raising analysis body. -/
theorem analyze_catches_and_degrades_witness :
    (["g"] : List String) ≠ [] ∧
      analyze ["g"] (fun d => (d, some (PyError.otherError "x"))) [] =
        Except.ok
          [{ line := 0, character := 0, endLine := 0, endCharacter := 1,
             message := "Analysis error: " ++ (PyError.otherError "x").msg,
             severity := .error, source := "lark-language-server" }] :=
  ⟨by simp,
   analyze_catches_and_degrades ["g"] (fun d => (d, some (PyError.otherError "x")))
     [] [] (PyError.otherError "x") (by simp) rfl⟩

/-- Counterexample to C2 as stated: for the empty document (source `""`,
so `self.lines == []`), an exception raised by an analysis step is not
turned into a diagnostic — the catch path's `_add_diagnostic(0, 0, ...)`
itself raises `IndexError`, which propagates and loses the document. -/
theorem analyze_empty_document_counterexample :
    analyze [] (fun d => (d, some (PyError.otherError "boom"))) [] =
      Except.error PyError.indexError := by
  rfl

/-- C6 (amended): a parse error carrying one-based `(line, column)`
produces a diagnostic whose range starts at the zero-based
`(line - 1, column - 1)` — with column falling back to `0` when the error
carries no positive column — clamped into the document by
`_add_diagnostic`: the line into `[0, len(lines) - 1]` and the column into
`[0, len(line_text)]` (the clamps are the identity whenever the
subtract-one coordinates already lie within the document). -/
theorem parse_error_diagnostic_subtracts_one (lines : List String)
    (diags : List Diagnostic) (errLine : Int) (errColumn : Option Int)
    (errText : String) (hl : lines ≠ []) :
    parse_error_diagnostic lines diags errLine errColumn errText =
      let rawCol : Int :=
        match errColumn with
        | some c => if c != 0 then c - 1 else 0
        | none => 0
      let l := min (max 0 (errLine - 1)) ((lines.length : Int) - 1)
      let text := (pyIndex lines l).getD ""
      let c := min (max 0 rawCol) (text.length : Int)
      Except.ok (diags ++
        [{ line := l, character := c, endLine := l, endCharacter := c + 1,
           message := "Parse error: " ++ errText, severity := .error,
           source := "lark-language-server" }]) := by
  unfold parse_error_diagnostic
  rw [add_diagnostic_nonempty _ _ _ _ _ _ hl]

/-- Witness for C6's amended theorem: a one-line document `["ab"]` with an
in-range error at one-based line 1, column 2 gets its diagnostic at
zero-based `(0, 1)`. -/
theorem parse_error_diagnostic_subtracts_one_witness :
    parse_error_diagnostic ["ab"] [] 1 (some 2) "m" =
      Except.ok
        [{ line := 0, character := 1, endLine := 0, endCharacter := 2,
           message := "Parse error: m", severity := .error,
           source := "lark-language-server" }] := by
  rw [parse_error_diagnostic_subtracts_one ["ab"] [] 1 (some 2) "m" (by simp)]
  rfl

/-- Counterexample to C6 as stated: an `UnexpectedEOF` carries
`line = -1, column = -1` (no one-based position), and on the one-line
document `["start: rule"]` the code emits the diagnostic at `(0, 0)` after
clamping — not at `(line - 1, column - 1) = (-2, -2)` as subtracting one
would demand. -/
theorem parse_error_position_counterexample :
    parse_error_diagnostic ["start: rule"] [] (-1) (some (-1)) "eof" =
        Except.ok
          [{ line := 0, character := 0, endLine := 0, endCharacter := 1,
             message := "Parse error: eof", severity := .error,
             source := "lark-language-server" }] ∧
      (0 : Int) ≠ (-1 : Int) - 1 := by
  constructor
  · rfl
  · decide

/-- C8: for a document with at least one line whose `_parse_grammar` set
`_parsed_tree`, the analysis pass always raises `AttributeError` —
`_extract_symbols` calls `self._symbol_table.visit_topdown`, but the
`SymbolTable` class defines no `visit_topdown` attribute — so `_analyze`
appends one diagnostic whose message starts with `Analysis error:` at
position `(0,0)` with Error severity; consequently the document ends
construction with at least one Error diagnostic. -/
theorem analysis_always_fails_after_successful_parse (lines : List String)
    (diags : List Diagnostic) (hl : lines ≠ []) :
    extract_symbols (some ()) =
        Except.error
          (PyError.attributeError "SymbolTable object has no attribute visit_topdown") ∧
      analyze_after_successful_parse lines (some ()) diags =
        Except.ok (diags ++
          [{ line := 0, character := 0, endLine := 0, endCharacter := 1,
             message :=
               "Analysis error: " ++ "SymbolTable object has no attribute visit_topdown",
             severity := .error, source := "lark-language-server" }]) ∧
      ∃ dg ∈ diags ++
          [{ line := 0, character := 0, endLine := 0, endCharacter := 1,
             message :=
               "Analysis error: " ++ "SymbolTable object has no attribute visit_topdown",
             severity := .error, source := "lark-language-server" }],
        dg.severity = Severity.error := by
  refine ⟨rfl, ?_, ?_⟩
  · exact analyze_catch_spec lines (analysis_steps_after_parse (some ())) diags diags
      (PyError.attributeError "SymbolTable object has no attribute visit_topdown") hl rfl
  · refine ⟨_, List.mem_append_right _ (List.mem_singleton.mpr rfl), rfl⟩

/-- Witness for C8 at a concrete parsed one-line document. -/
theorem analysis_always_fails_after_successful_parse_witness :
    (["start: x"] : List String) ≠ [] ∧
      analyze_after_successful_parse ["start: x"] (some ()) [] =
        Except.ok
          [{ line := 0, character := 0, endLine := 0, endCharacter := 1,
             message :=
               "Analysis error: " ++ "SymbolTable object has no attribute visit_topdown",
             severity := .error, source := "lark-language-server" }] :=
  ⟨by simp,
   (analysis_always_fails_after_successful_parse ["start: x"] [] (by simp)).2.1⟩

/-- C7: for every parse tree whose children are Trees, Tokens, or `None`,
`get_tokens(tree)` with `include_placeholders` left `False` yields exactly
the `Token` leaves of the tree, each once, in depth-first left-to-right
order, skipping `None` children (and, being a pure read of the tree, never
mutating it). -/
theorem get_tokens_yields_token_leaves (cs : List Child)
    (h : children_well_typed cs = true) :
    get_tokens cs false = spec_token_leaves cs := by
  induction cs using children_well_typed.induct with
  | case1 => simp [get_tokens, spec_token_leaves]
  | case2 ts cs iht ihc =>
    simp only [children_well_typed, Bool.and_eq_true] at h
    simp only [get_tokens, spec_token_leaves]
    rw [iht h.1, ihc h.2]
  | case3 t cs ihc =>
    simp only [children_well_typed] at h
    simp only [get_tokens, spec_token_leaves]
    rw [ihc h]
  | case4 cs ihc =>
    simp only [children_well_typed] at h
    simp only [get_tokens, spec_token_leaves]
    rw [ihc h]
    simp
  | case5 v cs =>
    simp only [children_well_typed] at h
    exact absurd h (by simp)

/-- Witness for C7 on a concrete three-level tree with `None` children:
`Tree [Token "a", None, Tree [Tree [], Token "b"], Token "c"]`. -/
theorem get_tokens_yields_token_leaves_witness :
    children_well_typed
        [Child.tree [Child.token "a", Child.null,
          Child.tree [Child.tree [], Child.token "b"], Child.token "c"]] = true ∧
      get_tokens
          [Child.tree [Child.token "a", Child.null,
            Child.tree [Child.tree [], Child.token "b"], Child.token "c"]] false =
        [Child.token "a", Child.token "b", Child.token "c"] :=
  ⟨by simp [children_well_typed],
   by
    rw [get_tokens_yields_token_leaves
      [Child.tree [Child.token "a", Child.null,
        Child.tree [Child.tree [], Child.token "b"], Child.token "c"]]
      (by simp [children_well_typed])]
    simp [spec_token_leaves]⟩

/-- C9: `_rules`, `_terminals` and `_references` are empty at
construction and no method ever inserts into them (the bodies of
`_find_references` and `_validate_references` are commented out), so for
every document that finishes construction, every symbol and every
position, `get_references` returns `[]` and `get_hover_info` returns
`None`. -/
theorem document_maps_stay_empty (uri source : String)
    (body : List Diagnostic → List Diagnostic × Option PyError)
    (doc : LarkDocument) (hdoc : mkLarkDocument uri source body = .ok doc) :
    doc.rules = [] ∧ doc.terminals = [] ∧ doc.references = [] ∧
      (∀ symbol : String, doc.get_references symbol = []) ∧
      (∀ line col : Nat, doc.get_hover_info line col = none) := by
  have hfields : doc.rules = [] ∧ doc.terminals = [] ∧ doc.references = [] := by
    unfold mkLarkDocument at hdoc
    dsimp only at hdoc
    cases hA : analyze (splitlines source) body [] with
    | error e => rw [hA] at hdoc; cases hdoc
    | ok ds =>
      rw [hA] at hdoc
      cases hdoc
      exact ⟨rfl, rfl, rfl⟩
  refine ⟨hfields.1, hfields.2.1, hfields.2.2, ?_, ?_⟩
  · intro symbol
    unfold LarkDocument.get_references
    rw [hfields.2.2]
    rfl
  · intro line col
    unfold LarkDocument.get_hover_info
    cases hs : get_symbol_at_position doc.lines line col with
    | none => rfl
    | some symbol =>
      by_cases he : symbol = ""
      · simp [he]
      · have hr : dictContains doc.rules symbol = false := by
          rw [hfields.1]; rfl
        have ht : dictContains doc.terminals symbol = false := by
          rw [hfields.2.1]; rfl
        simp [he, hr, ht]

/-- Witness for C9 on the concrete document `"start: x\n"`. -/
theorem document_maps_stay_empty_witness :
    mkLarkDocument "file:///g.lark" "start: x\n" (fun d => (d, none)) =
        Except.ok
          { uri := "file:///g.lark", source := "start: x\n", lines := ["start: x"],
            rules := [], terminals := [], imports := [], references := [],
            diagnostics := [] } ∧
      ({ uri := "file:///g.lark", source := "start: x\n", lines := ["start: x"],
         rules := [], terminals := [], imports := [], references := [],
         diagnostics := [] } : LarkDocument).get_references "start" = [] ∧
      ({ uri := "file:///g.lark", source := "start: x\n", lines := ["start: x"],
         rules := [], terminals := [], imports := [], references := [],
         diagnostics := [] } : LarkDocument).get_hover_info 0 0 = none := by
  have h := document_maps_stay_empty "file:///g.lark" "start: x\n" (fun d => (d, none))
    { uri := "file:///g.lark", source := "start: x\n", lines := ["start: x"],
      rules := [], terminals := [], imports := [], references := [],
      diagnostics := [] } (by rfl)
  exact ⟨by rfl, h.2.2.2.1 "start", h.2.2.2.2 0 0⟩

theorem reference_is_in_local_scope_iff (name : String) (r : Reference)
    (definitions : List (String × List Definition)) :
    reference_is_in_local_scope name r definitions = true ↔
      ResolvesLocally name r definitions := by
  unfold reference_is_in_local_scope ResolvesLocally
  cases hn : r.astNode with
  | none => simp
  | some node =>
    cases node with
    | rule rn =>
      cases hd : dictHead definitions rn with
      | none => simp [hd]
      | some d => simp [hd]
    | importNode a =>
      cases a with
      | none => simp
      | some an =>
        cases hd : dictHead definitions an with
        | none => simp [hd]
        | some d => simp [hd]
    | otherNode => simp

/-- C3: `validate_undefined_reference` reports
`DefinitionNotFoundForReferenceError` for a reference if and only if its
name is neither present in the global definitions map nor resolvable by
local-scope resolution (the reference's `ast_node` is a `Rule` whose
definition's range contains the reference's position or whose children
keys contain the name, or symmetrically an `Import` alias). -/
theorem validate_undefined_reference_iff (name : String) (refs : List Reference)
    (definitions : List (String × List Definition)) (r : Reference) :
    RefError.definitionNotFoundForReference name r ∈
        validate_undefined_reference name refs definitions ↔
      r ∈ refs ∧ dictContains definitions name = false ∧
        ¬ ResolvesLocally name r definitions := by
  unfold validate_undefined_reference
  by_cases hc : dictContains definitions name
  · simp [hc]
  · have hc' : dictContains definitions name = false := by
      simpa using hc
    rw [if_neg (by simp [hc'])]
    rw [List.mem_filterMap]
    constructor
    · rintro ⟨r', hr', hsome⟩
      by_cases hl : reference_is_in_local_scope name r' definitions
      · rw [if_pos hl] at hsome
        cases hsome
      · rw [if_neg hl] at hsome
        have hrr : r' = r := by
          cases hsome
          rfl
        subst hrr
        refine ⟨hr', hc', ?_⟩
        rw [← reference_is_in_local_scope_iff]
        simpa using hl
    · rintro ⟨hr, _, hnl⟩
      refine ⟨r, hr, ?_⟩
      rw [← reference_is_in_local_scope_iff] at hnl
      have : reference_is_in_local_scope name r definitions = false := by
        simpa using hnl
      rw [this]
      simp

/-- Witness for C3: the template parameter `T` of `template_rule{T}: T`,
declared only in the rule's parameter list and referenced only inside its
body, produces no error — instantiating the iff at the concrete table. -/
theorem validate_undefined_reference_iff_witness :
    (¬ (RefError.definitionNotFoundForReference "T" templateParamRef ∈
        validate_undefined_reference "T" [templateParamRef]
          templateTable.definitions)) ∧
      validate_undefined_reference "T" [templateParamRef]
          templateTable.definitions = [] :=
  ⟨fun hmem =>
    absurd
      (((validate_undefined_reference_iff "T" [templateParamRef]
          templateTable.definitions templateParamRef).mp hmem).2.2)
      (fun hnl =>
        hnl (Or.inl ⟨"template_rule", templateRuleDef, rfl, rfl, Or.inr rfl⟩)),
   by rfl⟩

/-- C4: for a name with `k` stored top-level definitions,
`validate_single_definition` reports zero errors when `k = 1`, one
`DefinitionNotFoundError` when `k = 0`, and exactly `k - 1`
`MultipleDefinitionsError`s when `k > 1`, one per definition after the
first (the first is never flagged). -/
theorem validate_single_definition_counts (name : String) (defs : List Definition) :
    (defs = [] →
        validate_single_definition name defs = [DefError.definitionNotFound name]) ∧
      (defs.length = 1 → validate_single_definition name defs = []) ∧
      (∀ d rest, defs = d :: rest →
        validate_single_definition name defs =
            rest.map (DefError.multipleDefinitions name) ∧
          (validate_single_definition name defs).length = defs.length - 1) := by
  refine ⟨?_, ?_, ?_⟩
  · intro h
    subst h
    rfl
  · intro h
    cases defs with
    | nil => simp at h
    | cons d rest =>
      simp at h
      subst h
      rfl
  · intro d rest h
    subst h
    exact ⟨rfl, by simp [validate_single_definition]⟩

/-- Witness for C4 at a name defined three times: exactly the two
definitions after the first are flagged, in order. -/
theorem validate_single_definition_counts_witness :
    validate_single_definition "r" [dupDefA, dupDefB, dupDefC] =
        [DefError.multipleDefinitions "r" dupDefB,
         DefError.multipleDefinitions "r" dupDefC] ∧
      (validate_single_definition "r" [dupDefA, dupDefB, dupDefC]).length = 3 - 1 :=
  (validate_single_definition_counts "r" [dupDefA, dupDefB, dupDefC]).2.2
    dupDefA [dupDefB, dupDefC] rfl

theorem get_definition_step_none (tbl : SymbolTable) (r : Reference)
    (h : ∀ d, ¬ RefYields tbl r d) :
    (match r.astNode with
     | some (AstBackRef.rule ruleName) => dictHead tbl.definitions ruleName
     | some (AstBackRef.importNode (some aliasName)) => dictHead tbl.definitions aliasName
     | _ => none) = none := by
  cases hn : r.astNode with
  | none => rfl
  | some node =>
    cases node with
    | rule rn =>
      cases hd : dictHead tbl.definitions rn with
      | none => exact hd
      | some d =>
        exfalso
        apply h d
        unfold dictHead at hd
        cases hg : dictGet tbl.definitions rn with
        | none => rw [hg] at hd; cases hd
        | some l =>
          cases l with
          | nil => rw [hg] at hd; cases hd
          | cons a t =>
            rw [hg] at hd
            cases hd
            exact Or.inl ⟨rn, t, hn, hg⟩
    | importNode a =>
      cases a with
      | none => rfl
      | some an =>
        cases hd : dictHead tbl.definitions an with
        | none => exact hd
        | some d =>
          exfalso
          apply h d
          unfold dictHead at hd
          cases hg : dictGet tbl.definitions an with
          | none => rw [hg] at hd; cases hd
          | some l =>
            cases l with
            | nil => rw [hg] at hd; cases hd
            | cons a t =>
              rw [hg] at hd
              cases hd
              exact Or.inr ⟨an, t, hn, hg⟩
    | otherNode => rfl

theorem get_definition_step_some (tbl : SymbolTable) (r : Reference) (d : Definition)
    (h : RefYields tbl r d) :
    (match r.astNode with
     | some (AstBackRef.rule ruleName) => dictHead tbl.definitions ruleName
     | some (AstBackRef.importNode (some aliasName)) => dictHead tbl.definitions aliasName
     | _ => none) = some d := by
  rcases h with ⟨rn, rest, hn, hg⟩ | ⟨an, rest, hn, hg⟩
  · rw [hn]
    show dictHead tbl.definitions rn = some d
    unfold dictHead
    rw [hg]
  · rw [hn]
    show dictHead tbl.definitions an = some d
    unfold dictHead
    rw [hg]

/-- C5: `get_definition(name)` returns the first entry of
`definitions[name]` when that list is non-empty; otherwise it scans the
references stored under `name` in order: it returns the definition
yielded by the first reference whose `ast_node` is a `Rule` whose own
name has a definition, or an `Import` with a defined alias — skipping
every earlier reference that yields nothing — and returns "not found"
when no reference stored under `name` yields a definition. -/
theorem get_definition_spec (tbl : SymbolTable) (name : String) :
    (∀ d rest, dictGet tbl.definitions name = some (d :: rest) →
        tbl.get_definition name = some d) ∧
      ((dictGet tbl.definitions name = none ∨
          dictGet tbl.definitions name = some []) →
        (∀ r ∈ dictEntries tbl.references name, ∀ d, ¬ RefYields tbl r d) →
        tbl.get_definition name = none) ∧
      (∀ pre r post d,
        (dictGet tbl.definitions name = none ∨
          dictGet tbl.definitions name = some []) →
        dictEntries tbl.references name = pre ++ r :: post →
        (∀ r' ∈ pre, ∀ d', ¬ RefYields tbl r' d') →
        RefYields tbl r d →
        tbl.get_definition name = some d) := by
  refine ⟨?_, ?_, ?_⟩
  · intro d rest h
    unfold SymbolTable.get_definition
    rw [h]
  · intro hdefs hnone
    unfold SymbolTable.get_definition
    rcases hdefs with h | h <;> rw [h]
    · show (dictEntries tbl.references name).findSome? _ = none
      rw [List.findSome?_eq_none_iff]
      intro r hr
      exact get_definition_step_none tbl r (hnone r hr)
    · show (dictEntries tbl.references name).findSome? _ = none
      rw [List.findSome?_eq_none_iff]
      intro r hr
      exact get_definition_step_none tbl r (hnone r hr)
  · intro pre r post d hdefs hrefs hpre hr
    unfold SymbolTable.get_definition
    have hscan : ∀ q : List Reference, (∀ r' ∈ q, ∀ d', ¬ RefYields tbl r' d') →
        (q ++ r :: post).findSome? (fun r =>
          match r.astNode with
          | some (AstBackRef.rule ruleName) => dictHead tbl.definitions ruleName
          | some (AstBackRef.importNode (some aliasName)) =>
            dictHead tbl.definitions aliasName
          | _ => none) = some d := by
      intro q
      induction q with
      | nil =>
        intro _
        rw [List.nil_append, List.findSome?_cons, get_definition_step_some tbl r d hr]
      | cons x xs ih =>
        intro hq
        rw [List.cons_append, List.findSome?_cons,
          get_definition_step_none tbl x (hq x (List.mem_cons_self x xs))]
        exact ih (fun r' hr' => hq r' (List.mem_cons_of_mem x hr'))
    rcases hdefs with h | h <;> rw [h] <;>
      · show (dictEntries tbl.references name).findSome? _ = some d
        rw [hrefs]
        exact hscan pre hpre

/-- Witness for C5: for the grammar `template_rule{T}: T` with no other
top-level use of `T`, `get_definition("T")` returns `template_rule`'s
definition — the scan conjunct applied with an empty prefix, the
rule-reference yielding `template_rule`'s definition. -/
theorem get_definition_spec_witness :
    templateTable.get_definition "T" = some templateRuleDef :=
  (get_definition_spec templateTable "T").2.2 [] templateParamRef [] templateRuleDef
    (Or.inl rfl) rfl
    (fun r' hr' => absurd hr' (List.not_mem_nil r'))
    (Or.inl ⟨"template_rule", [], rfl, rfl⟩)

end LarkLS
